import Mathlib

/-!
Shallow embedding of the `coinmarketcap-mcp` repository
(`src/coinmarketcap_mcp/server.py` and `src/coinmarketcap_mcp/cmc_api.py`).

Python strings are modelled as `List Char` (`Str`); Python `None`-able
parameters as `Option`; network calls as oracle functions stored in a
`Client` structure returning `Except Unit _` (an `error` models any raised
exception); floats that hold similarity scores as `ℚ` (all scores the code
manipulates are exact decimal fractions).  Character-class functions model
the ASCII behaviour of Python's `str.lower`/`str.upper`/`str.strip` and of
the regex classes used by the code.
-/

namespace CMC

abbrev Str := List Char

instance {α β : Type} [DecidableEq α] [DecidableEq β] : DecidableEq (Except α β) := fun a b =>
  match a, b with
  | .ok x, .ok y =>
    if h : x = y then isTrue (by rw [h]) else isFalse (by intro hh; cases hh; exact h rfl)
  | .error x, .error y =>
    if h : x = y then isTrue (by rw [h]) else isFalse (by intro hh; cases hh; exact h rfl)
  | .ok _, .error _ => isFalse (by intro hh; cases hh)
  | .error _, .ok _ => isFalse (by intro hh; cases hh)

/-- Character list of a Lean string literal (used to transcribe the Python
string literals of the source). -/
def chars (s : String) : Str := s.data

/-- ASCII model of Python `str.lower` on one character (`'A'` = 65, `'Z'` = 90). -/
def lowerChar (c : Char) : Char :=
  if 65 ≤ c.toNat ∧ c.toNat ≤ 90 then Char.ofNat (c.toNat + 32) else c

/-- ASCII model of Python `str.upper` on one character (`'a'` = 97, `'z'` = 122). -/
def upperChar (c : Char) : Char :=
  if 97 ≤ c.toNat ∧ c.toNat ≤ 122 then Char.ofNat (c.toNat - 32) else c

/-- ASCII whitespace, as stripped by Python `str.strip` and matched by the
regex class `\s`: space (32), tab (9), LF (10), VT (11), FF (12), CR (13). -/
def isSpaceChar (c : Char) : Bool :=
  decide (c.toNat = 32 ∨ (9 ≤ c.toNat ∧ c.toNat ≤ 13))

/-- Python `str.lower`. -/
def pyLower (s : Str) : Str := s.map lowerChar

/-- Python `str.upper`. -/
def pyUpper (s : Str) : Str := s.map upperChar

/-- Python `str.strip` (no argument): drop whitespace from both ends. -/
def pyStrip (s : Str) : Str :=
  ((s.dropWhile isSpaceChar).reverse.dropWhile isSpaceChar).reverse

/-- Python `str.rstrip(cs)` restricted to one stripped-character set given as a
predicate: drop matching characters from the right end. -/
def pyRstrip (p : Char → Bool) (s : Str) : Str :=
  (s.reverse.dropWhile p).reverse

/-- Python `s.strip(c)` for a single character `c`: drop `c` from both ends. -/
def pyStripChar (c : Char) (s : Str) : Str :=
  ((s.dropWhile (· == c)).reverse.dropWhile (· == c)).reverse

/-- Characters kept by `re.sub(r'[^a-z0-9\s-]', '', slug)` in `_name_to_slug`
(server.py:387): lowercase letters, digits, whitespace, hyphen (45). -/
def keepSlugChar (c : Char) : Bool :=
  decide ((97 ≤ c.toNat ∧ c.toNat ≤ 122) ∨ (48 ≤ c.toNat ∧ c.toNat ≤ 57)
    ∨ isSpaceChar c = true ∨ c.toNat = 45)

/-- Character class `[\s_]` of `re.sub(r'[\s_]+', '-', slug)` (server.py:388):
whitespace or underscore (95). -/
def isWsOrUnderscore (c : Char) : Bool :=
  isSpaceChar c || decide (c.toNat = 95)

/-- Model of `re.sub(p+, rep, s)` for a character class `p`: every maximal run
of characters satisfying `p` is replaced by the single character `rep`. -/
def collapseRuns (p : Char → Bool) (rep : Char) : Str → Str
  | [] => []
  | [c] => if p c then [rep] else [c]
  | c :: d :: rest =>
    if p c then
      if p d then collapseRuns p rep (d :: rest)
      else rep :: collapseRuns p rep (d :: rest)
    else c :: collapseRuns p rep (d :: rest)

/-- Embedding of `_name_to_slug` (server.py:383-390): lowercase and trim,
delete characters outside `[a-z0-9\s-]`, collapse whitespace/underscore runs
to a hyphen, collapse hyphen runs, strip hyphens from both ends. -/
def nameToSlug (name : Str) : Str :=
  let s1 := pyStrip (pyLower name)
  let s2 := s1.filter keepSlugChar
  let s3 := collapseRuns isWsOrUnderscore '-' s2
  let s4 := collapseRuns (· == '-') '-' s3
  pyStripChar '-' s4

/-- Characters that can occur in a derived slug: lowercase letters, digits,
or the hyphen (45). -/
def goodSlug (c : Char) : Prop :=
  (97 ≤ c.toNat ∧ c.toNat ≤ 122) ∨ (48 ≤ c.toNat ∧ c.toNat ≤ 57) ∨ c.toNat = 45

/-- Embedding of the `expansions` dict lookup in `_generate_symbol_variations`
(server.py:171-182); the dict is keyed by the normalized symbol. -/
def symbolExpansions (s : Str) : List Str :=
  if s = chars "RNDR" then [chars "RENDER"]
  else if s = chars "GRT" then [chars "GRAPH"]
  else if s = chars "FET" then [chars "FETCH", chars "ASI"]
  else if s = chars "AGIX" then [chars "ASI"]
  else if s = chars "OCEAN" then [chars "ASI"]
  else if s = chars "LUNA" then [chars "LUNC", chars "LUNA2"]
  else if s = chars "UST" then [chars "USTC"]
  else if s = chars "MATIC" then [chars "POL"]
  else []

/-- The `suffixes` list of `_generate_symbol_variations` (server.py:185). -/
def suffixList : List Str :=
  [chars "TOKEN", chars "COIN", chars "PROTOCOL", chars "NETWORK",
   chars "FINANCE", chars "SWAP", chars "DAO"]

/-- The rule part of `_generate_symbol_variations` (server.py:168-207),
applied to the already-normalized symbol `s`: the six rules are evaluated
independently and their outputs appended in the fixed source order. -/
def variationsOfNormalized (s : Str) : List Str :=
  symbolExpansions s
    ++ suffixList.filterMap (fun suf =>
        if suf.isSuffixOf s ∧ suf.length < s.length
        then some (s.take (s.length - suf.length)) else none)
    ++ (if s.length ≤ 4 then [s ++ chars "TOKEN", s ++ chars "COIN"] else [])
    ++ (if (s.getLast?.map Char.isDigit).getD false
        then [pyRstrip Char.isDigit s] else [])
    ++ (if 3 ≤ s.length ∧ (chars "R").isSuffixOf s
        then [s.dropLast ++ chars "ER"] else [])
    ++ (if 3 ≤ s.length ∧ (chars "N").isSuffixOf s
        then [s ++ chars "ET"] else [])

/-- Embedding of `_generate_symbol_variations` (server.py:162-207): the
symbol is first normalized (`upper` then `strip`, the reassignment of
server.py:167), then the rules run. -/
def generateSymbolVariations (symbol : Str) : List Str :=
  variationsOfNormalized (pyStrip (pyUpper symbol))

/-- Embedding of `_normalize_url` (server.py:393-400): lowercase, trim,
strip trailing slashes, then peel the three literal leading markers in the
fixed source order. -/
def normalizeUrl (url : Str) : Str :=
  let u0 := pyRstrip (· == '/') (pyStrip (pyLower url))
  let u1 := if (chars "https://").isPrefixOf u0
            then u0.drop (chars "https://").length else u0
  let u2 := if (chars "http://").isPrefixOf u1
            then u1.drop (chars "http://").length else u1
  if (chars "www.").isPrefixOf u2 then u2.drop (chars "www.").length else u2

/-- Embedding of `_extract_domain` (server.py:403-410): normalize, take the
part before the first `/`, then the part before the first `:`. -/
def extractDomain (url : Str) : Str :=
  (((normalizeUrl url).takeWhile (fun c => !(c == '/'))).takeWhile
    (fun c => !(c == ':')))

/-- Confidence tiers attached to candidates (`_confidence` values in server.py). -/
inductive Confidence
  | verified
  | high
  | medium
  | low
deriving DecidableEq

/-- Match methods (`_match_method` values in server.py). -/
inductive MatchMethod
  | exactSymbol
  | symbolVariation
  | slugMatch
  | fuzzyName
deriving DecidableEq

/-- Fuzzy match types (`_match_type` values in `_fuzzy_search_by_name`). -/
inductive MatchType
  | exact
  | contains
  | reverseContains
  | wordOverlap
deriving DecidableEq

/-- Homepage verification outcomes (`_homepage_match` values; the Python code
stores the string `"exact"`, the string `"domain"`, or the value `False`). -/
inductive HomepageMatch
  | exact
  | domain
  | noMatch
deriving DecidableEq

/-- A catalog entry as returned by the remote map endpoint (spec §3). -/
structure CatalogEntry where
  id : Nat
  name : Str
  symbol : Str
  slug : Str
  rank : Option Nat
deriving DecidableEq

/-- A candidate: a catalog entry plus the resolver metadata fields that
`search_cryptocurrency` attaches to the spread dict (spec §3; server.py
candidate dicts).  Fields the code leaves absent are `none`. -/
structure Candidate where
  entry : CatalogEntry
  matchMethod : MatchMethod
  confidence : Confidence
  matchedQuery : Option Str := none
  originalQuery : Option Str := none
  similarity : Option ℚ := none
  matchType : Option MatchType := none
  warning : Option Str := none
  homepageMatch : Option HomepageMatch := none
  websiteUrls : Option (List Str) := none
deriving DecidableEq

/-- The human-readable `search_log` lines, modelled structurally (one
constructor per f-string in server.py, carrying its interpolated data). -/
inductive LogEntry
  | exactSymbolFound (query : Str) (count : Nat)
  | exactSymbolFailed (query : Str)
  | symbolVariationFound (variant : Str) (count : Nat)
  | symbolVariationNoMatch (variant : Str)
  | slugFound (slugQuery : Str) (count : Nat)
  | slugFailed (slugQuery : Str)
  | fuzzyFound (nameQuery : Str) (count : Nat)
  | fuzzyNoMatch (nameQuery : Str)
  | homepageChecked (count : Nat)
deriving DecidableEq

/-- The two warning strings of server.py:146-149, modelled structurally. -/
inductive SearchWarning
  | lowConfidence
  | multipleMatches (count : Nat)
deriving DecidableEq

/-- The `ValueError` raised by `search_cryptocurrency` (server.py:39). -/
inductive SearchError
  | invalidArgument
deriving DecidableEq

/-- Values of the `/v2/cryptocurrency/info` slug response mapping: each key
maps either to a single entry or to a list of entries (server.py:93-114). -/
inductive InfoVal
  | one (e : CatalogEntry)
  | many (es : List CatalogEntry)
deriving DecidableEq

/-- Oracle for the `CoinMarketCapClient` calls `search_cryptocurrency`
makes.  Each operation either returns the `data` part of the response or
fails (`error` models any raised exception, which the resolver catches).
`mapBySymbol` is `get_cryptocurrency_map(symbol=...)`; `mapAll` is
`get_cryptocurrency_map(limit=5000)`; `infoBySlug` is
`get_cryptocurrency_info(slug=...)`; `infoByIds` is
`get_cryptocurrency_info(id=...)` projected to the website URL lists. -/
structure Client where
  mapBySymbol : Str → Except Unit (List CatalogEntry)
  mapAll : Except Unit (List CatalogEntry)
  infoBySlug : Str → Except Unit (List (Str × InfoVal))
  infoByIds : List Nat → Except Unit (List (Nat × List Str))

/-- Python truthiness of an optional-string parameter: `None` and the empty
string are falsy (`if not (name or symbol)` and the strategy gates). -/
def truthy : Option Str → Bool
  | none => false
  | some s => !s.isEmpty

/-- Lowercase-alphanumeric character class of `re.sub(r'[^a-z0-9]', '', s)`. -/
def isLowerAlnum (c : Char) : Bool :=
  decide ((97 ≤ c.toNat ∧ c.toNat ≤ 122) ∨ (48 ≤ c.toNat ∧ c.toNat ≤ 57))

/-- The code's `re.sub(r'[^a-z0-9]', '', s)` cleanup. -/
def filterAlnum (s : Str) : Str := s.filter isLowerAlnum

/-- ASCII model of the regex class `\w`: letters, digits, underscore. -/
def isWordChar (c : Char) : Bool :=
  decide ((97 ≤ c.toNat ∧ c.toNat ≤ 122) ∨ (65 ≤ c.toNat ∧ c.toNat ≤ 90)
    ∨ (48 ≤ c.toNat ∧ c.toNat ≤ 57) ∨ c.toNat = 95)

/-- Model of `re.findall(r'\w{3,}', s)`: the maximal runs of word characters
having length at least 3 (splitting at non-word characters yields the maximal
runs; shorter runs and empty chunks are dropped by the length filter). -/
def words3 (s : Str) : List Str :=
  (s.splitOnP (fun c => !isWordChar c)).filter (fun w => 3 ≤ w.length)

/-- Exact rational arithmetic helpers.  The library's `Rat.add` and
`Rat.mul` are irreducible, so the model computes scores through `mkRat`,
which the kernel can evaluate; the values are the same rationals the Python
floats denote. -/
def qAdd (a b : ℚ) : ℚ := mkRat (a.num * b.den + b.num * a.den) (a.den * b.den)

/-- Exact rational multiplication through `mkRat` (see `qAdd`). -/
def qMul (a b : ℚ) : ℚ := mkRat (a.num * b.num) (a.den * b.den)

/-- Python `round(q, 2)` on the rational model of the score: half-up
rounding of `100 * q`, divided by 100.  Python rounds the binary float
half-to-even; on the scores this code produces the two agree, and no claim
depends on a half-cent tie. -/
def round2 (q : ℚ) : ℚ :=
  mkRat ((200 * q.num + (q.den : ℤ)).fdiv (2 * (q.den : ℤ))) 100

/-- One element of the list `_fuzzy_search_by_name` returns: the spread
catalog entry plus `_similarity` (already rounded) and `_match_type`. -/
structure FuzzyMatch where
  entry : CatalogEntry
  similarity : ℚ
  matchType : Option MatchType
deriving DecidableEq

/-- The per-entry similarity block of `_fuzzy_search_by_name`
(server.py:228-259), before the keep threshold: returns the raw similarity
and the match type.  Note the `reverse_contains` guard tests the length of
the entry's cleaned NAME even when the containment holds via the slug
(server.py:248). -/
def entrySimilarityRaw (nameLower : Str) (e : CatalogEntry) : ℚ × Option MatchType :=
  let nameClean := filterAlnum nameLower
  let itemName := pyLower e.name
  let itemSlug := pyLower e.slug
  let itemNameClean := filterAlnum itemName
  let itemSlugClean := filterAlnum itemSlug
  if nameClean = itemNameClean ∨ nameClean = itemSlugClean then
    (1, some .exact)
  else if nameClean <:+: itemNameClean ∨ nameClean <:+: itemSlugClean then
    (mkRat 9 10, some .contains)
  else if itemNameClean <:+: nameClean ∨ itemSlugClean <:+: nameClean then
    (if 5 ≤ itemNameClean.length then (mkRat 17 20, some .reverseContains) else (0, none))
  else
    let queryWords := (words3 nameLower).toFinset
    let nameWords := (words3 itemName).toFinset
    if queryWords ≠ ∅ ∧ nameWords ≠ ∅ then
      let overlap := queryWords ∩ nameWords
      if overlap ≠ ∅ then
        (qAdd (mkRat 3 5) (qMul (mkRat overlap.card (max queryWords.card nameWords.card)) (mkRat 3 10)),
         some .wordOverlap)
      else (0, none)
    else (0, none)

/-- The keep threshold and appended match record of `_fuzzy_search_by_name`
(server.py:261-266): entries scoring at least 0.6 are kept, with the
similarity rounded to two decimals. -/
def scoreEntry (nameLower : Str) (e : CatalogEntry) : Option FuzzyMatch :=
  let sm := entrySimilarityRaw nameLower e
  if mkRat 3 5 ≤ sm.1 then
    some { entry := e, similarity := round2 sm.1, matchType := sm.2 }
  else none

/-- The sort key relation of `matches.sort(key=lambda x: (-..., rank))`
(server.py:269): descending stored similarity, ties by ascending rank with
the absent-rank sentinel 99999. -/
def fuzzyKeyLe (a b : FuzzyMatch) : Prop :=
  b.similarity < a.similarity ∨
    (a.similarity = b.similarity ∧ a.entry.rank.getD 99999 ≤ b.entry.rank.getD 99999)

instance : DecidableRel fuzzyKeyLe := fun a b => by unfold fuzzyKeyLe; infer_instance

/-- Embedding of `_fuzzy_search_by_name` (server.py:210-273): fetch the full
map, score every entry, keep scores ≥ 0.6, stable-sort by the key above, and
return the top 5; any fetch failure yields the empty list. -/
def fuzzySearchByName (client : Client) (name : Str) : List FuzzyMatch :=
  let nameLower := pyStrip (pyLower name)
  match client.mapAll with
  | .error _ => []
  | .ok data =>
    (List.insertionSort fuzzyKeyLe (data.filterMap (scoreEntry nameLower))).take 5

/-- The fuzzy-match warning string attached to strategy-4 candidates
(server.py:129). -/
def fuzzyWarningText : Str :=
  chars "Fuzzy match - verify with homepage or manual check"

/-- The per-candidate update of `_verify_candidates_by_homepage`
(server.py:344-375): candidates absent from the fetched info mapping are
unchanged; an exact URL match sets confidence `verified` and removes the
warning; otherwise a domain match promotes `low` to `medium`. -/
def verifyOne (d : List (Nat × List Str)) (homepage : Str) (c : Candidate) : Candidate :=
  match d.lookup c.entry.id with
  | none => c
  | some websiteList =>
    let exactM := websiteList.any (fun u => normalizeUrl u == normalizeUrl homepage)
    let domainM := websiteList.any (fun u => extractDomain u == extractDomain homepage)
    if exactM then
      { c with confidence := .verified, homepageMatch := some .exact,
               websiteUrls := some websiteList, warning := none }
    else if domainM then
      { c with confidence := if c.confidence = .low then .medium else c.confidence,
               homepageMatch := some .domain, websiteUrls := some websiteList }
    else
      { c with homepageMatch := some .noMatch, websiteUrls := some websiteList }

/-- Embedding of `_verify_candidates_by_homepage` (server.py:327-380): fetch
info for the first 10 candidates' ids and update every candidate; any fetch
failure returns the candidates unchanged. -/
def verifyCandidatesByHomepage (client : Client) (cands : List Candidate)
    (homepage : Str) : List Candidate :=
  let idsToCheck := (cands.take 10).map (fun c => c.entry.id)
  if idsToCheck.isEmpty then cands
  else
    match client.infoByIds idsToCheck with
    | .error _ => cands
    | .ok d => cands.map (verifyOne d homepage)

/-- Candidate built by strategy 1 (server.py:52-58). -/
def mkExactCandidate (symU : Str) (e : CatalogEntry) : Candidate :=
  { entry := e, matchMethod := .exactSymbol, confidence := .high,
    matchedQuery := some symU }

/-- Candidate built by strategy 2 (server.py:73-80). -/
def mkVariationCandidate (variant origUpper : Str) (e : CatalogEntry) : Candidate :=
  { entry := e, matchMethod := .symbolVariation, confidence := .medium,
    matchedQuery := some variant, originalQuery := some origUpper }

/-- Candidate built by strategy 3 (server.py:96-114): only the four identity
fields of the info entry are copied, so the rank is absent. -/
def mkSlugCandidate (slugQuery : Str) (e : CatalogEntry) : Candidate :=
  { entry := { id := e.id, name := e.name, symbol := e.symbol, slug := e.slug,
               rank := none },
    matchMethod := .slugMatch, confidence := .medium,
    matchedQuery := some slugQuery }

/-- Candidate built by strategy 4 (server.py:123-130). -/
def mkFuzzyCandidate (m : FuzzyMatch) : Candidate :=
  { entry := m.entry, matchMethod := .fuzzyName, confidence := .low,
    similarity := some m.similarity, matchType := m.matchType,
    warning := some fuzzyWarningText }

/-- Strategy 1, exact symbol match (server.py:46-61).  An empty `data` list
appends no log line; a raised exception appends the failure line. -/
def strategy1 (client : Client) (symbol : Str) : List Candidate × List LogEntry :=
  let symU := pyStrip (pyUpper symbol)
  match client.mapBySymbol symU with
  | .error _ => ([], [.exactSymbolFailed symU])
  | .ok [] => ([], [])
  | .ok (e :: es) =>
    ((e :: es).map (mkExactCandidate symU), [.exactSymbolFound symU (e :: es).length])

/-- The strategy-2 loop over generated variants (server.py:66-84),
instrumented with the trace of variants that were actually looked up (third
component).  A variant equal to the uppercased (NOT stripped) original symbol
is skipped; a lookup failure logs and continues; a nonempty result appends
candidates, logs, and breaks. -/
def variationLoop (client : Client) (symbolUpper : Str) :
    List Str → List Candidate × List LogEntry × List Str
  | [] => ([], [], [])
  | v :: rest =>
    if v = symbolUpper then variationLoop client symbolUpper rest
    else
      match client.mapBySymbol v with
      | .error _ =>
        let r := variationLoop client symbolUpper rest
        (r.1, .symbolVariationNoMatch v :: r.2.1, v :: r.2.2)
      | .ok [] =>
        let r := variationLoop client symbolUpper rest
        (r.1, r.2.1, v :: r.2.2)
      | .ok (e :: es) =>
        ((e :: es).map (mkVariationCandidate v symbolUpper),
         [.symbolVariationFound v (e :: es).length], [v])

/-- Strategy 2, symbol variations (server.py:63-84). -/
def strategy2 (client : Client) (symbol : Str) : List Candidate × List LogEntry :=
  let r := variationLoop client (pyUpper symbol) (generateSymbolVariations symbol)
  (r.1, r.2.1)

/-- Strategy 3, slug match from name (server.py:86-117): each value of the
response mapping may be one entry or a list; both shapes are flattened. -/
def strategy3 (client : Client) (name : Str) : List Candidate × List LogEntry :=
  let slugQ := nameToSlug name
  match client.infoBySlug slugQ with
  | .error _ => ([], [.slugFailed slugQ])
  | .ok [] => ([], [])
  | .ok (kv :: kvs) =>
    let cs := (kv :: kvs).flatMap (fun p =>
      match p.2 with
      | .one e => [mkSlugCandidate slugQ e]
      | .many es => es.map (mkSlugCandidate slugQ))
    (cs, [.slugFound slugQ cs.length])

/-- Strategy 4, fuzzy name matching (server.py:119-133). -/
def strategy4 (client : Client) (name : Str) : List Candidate × List LogEntry :=
  match fuzzySearchByName client name with
  | [] => ([], [.fuzzyNoMatch name])
  | m :: ms =>
    ((m :: ms).map mkFuzzyCandidate, [.fuzzyFound name (m :: ms).length])

/-- The `confidence_order` dict of server.py:141 (every candidate the code
builds carries one of the four values, so the dict default collapses). -/
def confidenceOrder : Confidence → Nat
  | .verified => 0
  | .high => 1
  | .medium => 2
  | .low => 3

/-- The sort relation of `candidates.sort(key=...)` (server.py:142). -/
def confLe (a b : Candidate) : Prop :=
  confidenceOrder a.confidence ≤ confidenceOrder b.confidence

instance : DecidableRel confLe := fun a b => by unfold confLe; infer_instance

instance : IsTotal Candidate confLe := ⟨fun _ _ => Nat.le_total _ _⟩

instance : IsTrans Candidate confLe := ⟨fun _ _ _ => Nat.le_trans⟩

/-- The dict `search_cryptocurrency` returns (server.py:151-159). -/
structure SearchResult where
  queryName : Option Str
  querySymbol : Option Str
  queryHomepage : Option Str
  found : Bool
  matchCount : Nat
  bestMatch : Option Candidate
  allMatches : List Candidate
  searchLog : List LogEntry
  warnings : Option (List SearchWarning)
deriving DecidableEq

/-- The strategy pipeline of `search_cryptocurrency` before the final sort
(server.py:45-138): strategies 2-4 run only while no candidate exists yet,
and homepage verification runs only given a truthy homepage and a nonempty
candidate list. -/
def gatherCandidates (client : Client) (name symbol homepage : Option Str) :
    List Candidate × List LogEntry :=
  let s1 := if truthy symbol then strategy1 client (symbol.getD []) else ([], [])
  let s2 := if truthy symbol ∧ s1.1.isEmpty then strategy2 client (symbol.getD [])
            else ([], [])
  let c12 := s1.1 ++ s2.1
  let s3 := if truthy name ∧ c12.isEmpty then strategy3 client (name.getD [])
            else ([], [])
  let c123 := c12 ++ s3.1
  let s4 := if truthy name ∧ c123.isEmpty then strategy4 client (name.getD [])
            else ([], [])
  let cs := c123 ++ s4.1
  let cs5 := if truthy homepage ∧ !cs.isEmpty
             then verifyCandidatesByHomepage client cs (homepage.getD []) else cs
  let l5 : List LogEntry :=
    if truthy homepage ∧ !cs.isEmpty then [.homepageChecked cs5.length] else []
  (cs5, s1.2 ++ s2.2 ++ s3.2 ++ s4.2 ++ l5)

/-- The final sort, warnings, and result assembly of `search_cryptocurrency`
(server.py:140-159).  Python's stable sort is modelled by the stable
`insertionSort`. -/
def finalizeResult (name symbol homepage : Option Str)
    (cands : List Candidate) (log : List LogEntry) : SearchResult :=
  let sorted := List.insertionSort confLe cands
  let warns : List SearchWarning :=
    (match sorted.head? with
     | some c => if c.confidence = Confidence.low then [SearchWarning.lowConfidence] else []
     | none => [])
    ++ (if 1 < sorted.length ∧ ¬ truthy homepage = true
        then [SearchWarning.multipleMatches sorted.length] else [])
  { queryName := name, querySymbol := symbol, queryHomepage := homepage,
    found := !sorted.isEmpty,
    matchCount := sorted.length,
    bestMatch := sorted.head?,
    allMatches := sorted.take 10,
    searchLog := log,
    warnings := if warns.isEmpty then none else some warns }

/-- Embedding of `search_cryptocurrency` (server.py:16-159): raise
`InvalidArgument` when neither name nor symbol is truthy, otherwise run the
pipeline and return the assembled result. -/
def searchCryptocurrency (client : Client) (name symbol homepage : Option Str) :
    Except SearchError SearchResult :=
  if ¬ (truthy name ∨ truthy symbol) then .error .invalidArgument
  else
    let g := gatherCandidates client name symbol homepage
    .ok (finalizeResult name symbol homepage g.1 g.2)

/-- Status object of the remote response envelope (`cmc_api.py`): both fields
may be absent. -/
structure EnvStatus where
  errorCode : Option Int
  errorMessage : Option Str
deriving DecidableEq

/-- A parsed JSON response body: optional `status` envelope plus payload. -/
structure ApiEnvelope (α : Type) where
  status : Option EnvStatus
  payload : α
deriving DecidableEq

/-- The `CoinMarketCapAPIError` data (cmc_api.py:8-15). -/
structure UpstreamError where
  statusCode : Nat
  message : Str
  errorCode : Int
deriving DecidableEq

/-- The `data.get("status", {}).get("error_code", 0)` chain of cmc_api.py:252-253. -/
def effErrorCode {α : Type} (e : ApiEnvelope α) : Int :=
  match e.status with
  | none => 0
  | some st => st.errorCode.getD 0

/-- The `status.get("error_message", "Unknown error")` default of cmc_api.py:256. -/
def effErrorMessage {α : Type} (e : ApiEnvelope α) : Str :=
  match e.status with
  | none => chars "Unknown error"
  | some st => st.errorMessage.getD (chars "Unknown error")

/-- httpx `response.is_success`: transport status in the 2xx range. -/
def isSuccessStatus (n : Nat) : Prop := 200 ≤ n ∧ n < 300

instance : DecidablePred isSuccessStatus := fun n => by
  unfold isSuccessStatus; infer_instance

/-- Embedding of `CoinMarketCapClient._request` after the transport call
(cmc_api.py:247-263): fail with the upstream error when the envelope error
code is non-zero or the transport status is not a success, otherwise return
the parsed body.  Every client operation funnels through this function. -/
def clientRequest {α : Type} (statusCode : Nat) (body : ApiEnvelope α) :
    Except UpstreamError (ApiEnvelope α) :=
  if effErrorCode body ≠ 0 ∨ ¬ isSuccessStatus statusCode then
    .error { statusCode := statusCode, message := effErrorMessage body,
             errorCode := effErrorCode body }
  else .ok body

/-- Concrete catalog entry used by witnesses. -/
def btcEntry : CatalogEntry :=
  { id := 1, name := chars "Bitcoin", symbol := chars "BTC",
    slug := chars "bitcoin", rank := some 1 }

/-- Concrete client whose exact-symbol lookup knows only BTC. -/
def demoClient : Client :=
  { mapBySymbol := fun s => if s = chars "BTC" then .ok [btcEntry] else .ok []
  , mapAll := .ok [btcEntry]
  , infoBySlug := fun _ => .error ()
  , infoByIds := fun _ => .error () }

/-- Concrete client on which every operation raises. -/
def failClient : Client :=
  { mapBySymbol := fun _ => .error ()
  , mapAll := .error ()
  , infoBySlug := fun _ => .error ()
  , infoByIds := fun _ => .error () }

/-- The result of `searchCryptocurrency demoClient none (some "BTC") none`,
written out. -/
def demoResultBTC : SearchResult :=
  { queryName := none, querySymbol := some (chars "BTC"), queryHomepage := none,
    found := true, matchCount := 1,
    bestMatch := some (mkExactCandidate (chars "BTC") btcEntry),
    allMatches := [mkExactCandidate (chars "BTC") btcEntry],
    searchLog := [.exactSymbolFound (chars "BTC") 1],
    warnings := none }


/-- A low-confidence fuzzy candidate, used to exercise homepage verification. -/
def lowCand : Candidate :=
  { entry := btcEntry, matchMethod := .fuzzyName, confidence := .low,
    similarity := some (mkRat 9 10), matchType := some .contains,
    warning := some fuzzyWarningText }

/-- Client whose metadata lookup knows the websites of entry 1. -/
def verifyClient : Client :=
  { mapBySymbol := fun _ => .ok []
  , mapAll := .error ()
  , infoBySlug := fun _ => .error ()
  , infoByIds := fun ids =>
      if ids = [1] then .ok [(1, [chars "https://bitcoin.org"])] else .error () }

/-- The candidate `lowCand` after a successful exact homepage verification. -/
def lowCandVerified : Candidate :=
  { lowCand with
    confidence := .verified, homepageMatch := some .exact,
    websiteUrls := some [chars "https://bitcoin.org"], warning := none }

/-- An envelope whose status is absent, so its effective error code is 0. -/
def okEnvelope : ApiEnvelope Unit := { status := none, payload := () }

/-- The result of `searchCryptocurrency failClient none (some "ZZ") none`,
written out: the exact lookup fails, both generated variations fail, and the
search returns an empty result with the three log lines. -/
def emptyResultZZ : SearchResult :=
  { queryName := none, querySymbol := some (chars "ZZ"), queryHomepage := none,
    found := false, matchCount := 0, bestMatch := none, allMatches := [],
    searchLog := [.exactSymbolFailed (chars "ZZ"),
                  .symbolVariationNoMatch (chars "ZZTOKEN"),
                  .symbolVariationNoMatch (chars "ZZCOIN")],
    warnings := none }

/-- Concrete catalog entry for the Render project. -/
def rndrEntry : CatalogEntry :=
  { id := 5690, name := chars "Render", symbol := chars "RENDER",
    slug := chars "render", rank := some 50 }

/-- Client on which only the variant RNDRTOKEN has map entries. -/
def varClient : Client :=
  { mapBySymbol := fun s => if s = chars "RNDRTOKEN" then .ok [rndrEntry] else .ok []
  , mapAll := .error ()
  , infoBySlug := fun _ => .error ()
  , infoByIds := fun _ => .error () }

/-- Catalog entry whose cleaned name is short (2 characters) but whose
cleaned slug is 5 characters long and occurs inside the query below. -/
def shortNameEntry : CatalogEntry :=
  { id := 42, name := chars "Xy", symbol := chars "XY",
    slug := chars "abcde", rank := none }

/-- Catalog entry for Ethereum, used by the amended C6 witness. -/
def ethEntry : CatalogEntry :=
  { id := 1027, name := chars "Ethereum", symbol := chars "ETH",
    slug := chars "ethereum", rank := some 2 }

/-- Client whose full-map fetch returns two entries, used by the C10
witness. -/
def fullMapClient : Client :=
  { mapBySymbol := fun _ => .ok []
  , mapAll := .ok [btcEntry, ethEntry]
  , infoBySlug := fun _ => .error ()
  , infoByIds := fun _ => .error () }

/-! ## General lemmas -/

theorem finalizeResult_invariants (n s h : Option Str) (cs : List Candidate)
    (lg : List LogEntry) :
    ((finalizeResult n s h cs lg).found = true ↔ 0 < (finalizeResult n s h cs lg).matchCount)
    ∧ ((finalizeResult n s h cs lg).bestMatch = none ↔ (finalizeResult n s h cs lg).matchCount = 0)
    ∧ (finalizeResult n s h cs lg).bestMatch = (finalizeResult n s h cs lg).allMatches.head? := by
  simp only [finalizeResult]
  generalize List.insertionSort confLe cs = l
  cases l with
  | nil => simp
  | cons a t => simp [List.take_succ_cons]

theorem filter_confEq_insertionSort (conf : Confidence) :
    ∀ l : List Candidate,
      (List.insertionSort confLe l).filter (fun c => c.confidence == conf)
        = l.filter (fun c => c.confidence == conf) := by
  intro l
  induction l with
  | nil => rfl
  | cons a l ih =>
    rw [List.insertionSort, List.orderedInsert_eq_take_drop, List.filter_append]
    by_cases h : a.confidence = conf
    · have htw : ((List.insertionSort confLe l).takeWhile
          fun b => decide ¬ confLe a b).filter (fun c => c.confidence == conf) = [] := by
        rw [List.filter_eq_nil_iff]
        intro b hb
        have h1 := List.mem_takeWhile_imp hb
        simp only [decide_eq_true_eq] at h1
        simp only [beq_iff_eq]
        intro hbc
        exact h1 (by unfold confLe; rw [h, hbc])
      have hsplit : (List.insertionSort confLe l).filter (fun c => c.confidence == conf)
          = ((List.insertionSort confLe l).dropWhile
              fun b => decide ¬ confLe a b).filter (fun c => c.confidence == conf) := by
        conv_lhs => rw [← List.takeWhile_append_dropWhile
          (p := fun b => decide ¬ confLe a b) (l := List.insertionSort confLe l)]
        rw [List.filter_append, htw, List.nil_append]
      rw [htw, List.nil_append]
      have hpa : (a.confidence == conf) = true := by simp [h]
      simp only [List.filter_cons, hpa, if_true]
      rw [← hsplit, ih]
    · have hpa : (a.confidence == conf) = false := by simp [h]
      simp only [List.filter_cons, hpa, Bool.false_eq_true, if_false]
      rw [← List.filter_append, List.takeWhile_append_dropWhile, ih]

/-! ## Claim theorems -/

/-- C1: every `SearchResult` returned by `search_cryptocurrency` satisfies
`found = (match_count > 0)`, `best_match` is null exactly when
`match_count = 0`, and otherwise `best_match` equals the first candidate of
`all_matches`. -/
theorem c1_result_invariants :
    ∀ (client : Client) (name symbol homepage : Option Str) (r : SearchResult),
      searchCryptocurrency client name symbol homepage = .ok r →
      ((r.found = true ↔ 0 < r.matchCount)
        ∧ (r.bestMatch = none ↔ r.matchCount = 0)
        ∧ r.bestMatch = r.allMatches.head?) := by
  intro client name symbol homepage r hok
  unfold searchCryptocurrency at hok
  split at hok
  · exact absurd hok (by simp)
  · have he := Except.ok.inj hok
    subst he
    exact finalizeResult_invariants _ _ _ _ _

/-- Witness for C1 at a concrete client and query. -/
theorem c1_witness :
    searchCryptocurrency demoClient none (some (chars "BTC")) none = .ok demoResultBTC
    ∧ ((demoResultBTC.found = true ↔ 0 < demoResultBTC.matchCount)
      ∧ (demoResultBTC.bestMatch = none ↔ demoResultBTC.matchCount = 0)
      ∧ demoResultBTC.bestMatch = demoResultBTC.allMatches.head?) :=
  ⟨by decide,
   c1_result_invariants demoClient none (some (chars "BTC")) none demoResultBTC (by decide)⟩

/-- C4: during homepage verification, a candidate whose fetched metadata has a
website URL that normalizes to the supplied homepage becomes `verified`, its
warning is removed, and its `_homepage_match` is set to `exact`, regardless
of its prior tier. -/
theorem c4_homepage_exact_upgrade :
    ∀ (client : Client) (cands : List Candidate) (homepage : Str)
      (d : List (Nat × List Str)) (i : Nat) (c : Candidate) (us : List Str),
      client.infoByIds ((cands.take 10).map fun x => x.entry.id) = .ok d →
      cands[i]? = some c →
      d.lookup c.entry.id = some us →
      (∃ u ∈ us, normalizeUrl u = normalizeUrl homepage) →
      ∃ c', (verifyCandidatesByHomepage client cands homepage)[i]? = some c'
        ∧ c'.confidence = Confidence.verified
        ∧ c'.homepageMatch = some HomepageMatch.exact
        ∧ c'.warning = none
        ∧ c'.websiteUrls = some us
        ∧ c'.entry = c.entry := by
  intro client cands homepage d i c us hinfo hget hlook hex
  have hne : cands ≠ [] := by rintro rfl; simp at hget
  have hany : (us.any fun u => normalizeUrl u == normalizeUrl homepage) = true := by
    rw [List.any_eq_true]
    obtain ⟨u, hu, he⟩ := hex
    exact ⟨u, hu, by simp [he]⟩
  have hv : verifyOne d homepage c =
      { c with confidence := .verified, homepageMatch := some .exact,
               websiteUrls := some us, warning := none } := by
    unfold verifyOne
    rw [hlook]
    simp [hany]
  have hmap : verifyCandidatesByHomepage client cands homepage
      = cands.map (verifyOne d homepage) := by
    have h1 : (((cands.take 10).map fun x => x.entry.id).isEmpty) = false := by
      rcases cands with _ | ⟨a, t⟩
      · exact absurd rfl hne
      · rfl
    simp only [verifyCandidatesByHomepage, h1, Bool.false_eq_true, if_false, hinfo]
  rw [hmap]
  refine ⟨verifyOne d homepage c, ?_, ?_⟩
  · simp [List.getElem?_map, hget]
  · rw [hv]
    exact ⟨rfl, rfl, rfl, rfl, rfl⟩

/-- Witness for C4 at a concrete low-confidence candidate. -/
theorem c4_witness :
    (verifyCandidatesByHomepage verifyClient [lowCand] (chars "bitcoin.org"))[0]?
      = some lowCandVerified
    ∧ lowCandVerified.confidence = Confidence.verified
    ∧ lowCandVerified.warning = none
    ∧ lowCandVerified.homepageMatch = some HomepageMatch.exact := by
  obtain ⟨c', hget, hconf, hhm, hwarn, hurls, hentry⟩ :=
    c4_homepage_exact_upgrade verifyClient [lowCand] (chars "bitcoin.org")
      [(1, [chars "https://bitcoin.org"])] 0 lowCand [chars "https://bitcoin.org"]
      rfl rfl rfl ⟨chars "https://bitcoin.org", by decide, by decide⟩
  have h0 : (verifyCandidatesByHomepage verifyClient [lowCand] (chars "bitcoin.org"))[0]?
      = some lowCandVerified := by decide
  exact ⟨h0, by decide, by decide, by decide⟩

/-- C8: symbol variation generation contains the variants listed in the
spec, and emits the rules' outputs in the fixed source order (illustrated on
the input LUNA). -/
theorem c8_symbol_variation_examples :
    chars "RENDER" ∈ generateSymbolVariations (chars "RNDR")
    ∧ chars "POL" ∈ generateSymbolVariations (chars "MATIC")
    ∧ chars "LUNC" ∈ generateSymbolVariations (chars "LUNA")
    ∧ chars "LUNA2" ∈ generateSymbolVariations (chars "LUNA")
    ∧ chars "SOLTOKEN" ∈ generateSymbolVariations (chars "SOL")
    ∧ chars "SOLCOIN" ∈ generateSymbolVariations (chars "SOL")
    ∧ chars "BTC" ∈ generateSymbolVariations (chars "BTCTOKEN")
    ∧ generateSymbolVariations (chars "LUNA")
        = [chars "LUNC", chars "LUNA2", chars "LUNATOKEN", chars "LUNACOIN"] := by
  decide

/-- C9: the request step fails with an upstream error carrying the transport
status, message, and application error code exactly when the envelope error
code is non-zero or the transport status is outside the success range; when
neither holds it returns the parsed body. -/
theorem c9_request_failure_iff :
    ∀ (α : Type) (st : Nat) (body : ApiEnvelope α),
      ((∃ e, clientRequest st body = .error e) ↔
        (effErrorCode body ≠ 0 ∨ ¬ isSuccessStatus st))
      ∧ (∀ e, clientRequest st body = .error e →
          e = { statusCode := st, message := effErrorMessage body,
                errorCode := effErrorCode body })
      ∧ ((effErrorCode body = 0 ∧ isSuccessStatus st) → clientRequest st body = .ok body) := by
  intro α st body
  unfold clientRequest
  by_cases h : effErrorCode body ≠ 0 ∨ ¬ isSuccessStatus st
  · rw [if_pos h]
    refine ⟨⟨fun _ => h, fun _ => ⟨_, rfl⟩⟩, fun e he => (Except.error.inj he).symm, fun hc => ?_⟩
    rcases h with h | h
    · exact absurd hc.1 h
    · exact absurd hc.2 h
  · rw [if_neg h]
    refine ⟨⟨?_, fun hh => absurd hh h⟩, fun e he => absurd he (by simp), fun _ => rfl⟩
    rintro ⟨e, he⟩
    exact absurd he (by simp)

/-- Witness for C9 at a concrete success envelope. -/
theorem c9_witness :
    (effErrorCode okEnvelope = 0 ∧ isSuccessStatus 200)
    ∧ clientRequest 200 okEnvelope = .ok okEnvelope :=
  ⟨⟨rfl, by decide⟩, (c9_request_failure_iff Unit 200 okEnvelope).2.2 ⟨rfl, by decide⟩⟩

/-- C2: in every returned `SearchResult`, `all_matches` never places a
candidate of a strictly lower confidence tier before one of a higher tier,
and candidates of equal tier appear in their original discovery order (the
per-tier subsequence of `all_matches` is a prefix of the per-tier
subsequence of the gathered candidate list). -/
theorem c2_sorted_and_stable :
    ∀ (client : Client) (name symbol homepage : Option Str) (r : SearchResult),
      searchCryptocurrency client name symbol homepage = .ok r →
      List.Pairwise confLe r.allMatches
      ∧ ∀ conf : Confidence,
          r.allMatches.filter (fun c => c.confidence == conf)
            <+: (gatherCandidates client name symbol homepage).1.filter
                  (fun c => c.confidence == conf) := by
  intro client name symbol homepage r hok
  unfold searchCryptocurrency at hok
  split at hok
  · exact absurd hok (by simp)
  · have he := Except.ok.inj hok
    subst he
    constructor
    · show List.Pairwise confLe
        ((List.insertionSort confLe (gatherCandidates client name symbol homepage).1).take 10)
      exact List.Pairwise.sublist (List.take_sublist _ _)
        (List.sorted_insertionSort confLe _)
    · intro conf
      show (((List.insertionSort confLe (gatherCandidates client name symbol homepage).1).take 10).filter
              (fun c => c.confidence == conf))
          <+: (gatherCandidates client name symbol homepage).1.filter
              (fun c => c.confidence == conf)
      refine ⟨((List.insertionSort confLe
          (gatherCandidates client name symbol homepage).1).drop 10).filter
            (fun c => c.confidence == conf), ?_⟩
      rw [← List.filter_append, List.take_append_drop,
        filter_confEq_insertionSort conf _]

/-- Witness for C2 at a concrete client and query. -/
theorem c2_witness :
    searchCryptocurrency demoClient none (some (chars "BTC")) none = .ok demoResultBTC
    ∧ List.Pairwise confLe demoResultBTC.allMatches :=
  ⟨by decide,
   (c2_sorted_and_stable demoClient none (some (chars "BTC")) none demoResultBTC (by decide)).1⟩

/-- C3 counterexample: a present-but-empty name (with no symbol) still makes
the resolver raise `InvalidArgument`, although the claim promises a
`SearchResult` whenever at least one of name/symbol is present. -/
theorem c3_counterexample :
    (some ([] : Str)) ≠ (none : Option Str)
    ∧ searchCryptocurrency demoClient (some ([] : Str)) none none
        = .error .invalidArgument :=
  ⟨by decide, by decide⟩

/-- C3 (amended): `search_cryptocurrency` raises `InvalidArgument` exactly
when neither name nor symbol is a non-empty string (Python truthiness, so
empty strings count as absent); whenever one of them is non-empty the call
returns a `SearchResult` for every client behaviour, and a failing
exact-symbol lookup is converted into a `search_log` entry rather than
propagated. -/
theorem c3_error_handling :
    ∀ (client : Client) (name symbol homepage : Option Str),
      ((searchCryptocurrency client name symbol homepage = .error .invalidArgument)
        ↔ (truthy name = false ∧ truthy symbol = false))
      ∧ ((truthy name = true ∨ truthy symbol = true) →
          ∃ r, searchCryptocurrency client name symbol homepage = .ok r)
      ∧ (∀ sym, symbol = some sym → truthy symbol = true →
          client.mapBySymbol (pyStrip (pyUpper sym)) = .error () →
          ∃ r, searchCryptocurrency client name symbol homepage = .ok r
            ∧ LogEntry.exactSymbolFailed (pyStrip (pyUpper sym)) ∈ r.searchLog) := by
  intro client name symbol homepage
  by_cases h : truthy name = true ∨ truthy symbol = true
  · unfold searchCryptocurrency
    rw [if_neg (not_not_intro h)]
    refine ⟨⟨fun he => absurd he (by simp), fun hfs => ?_⟩,
            fun _ => ⟨_, rfl⟩, fun sym hs ht hmap => ⟨_, rfl, ?_⟩⟩
    · rcases h with h | h
      · rw [hfs.1] at h; cases h
      · rw [hfs.2] at h; cases h
    · subst hs
      show LogEntry.exactSymbolFailed (pyStrip (pyUpper sym))
        ∈ (gatherCandidates client name (some sym) homepage).2
      unfold gatherCandidates strategy1
      simp only [ht, if_true, Option.getD_some, hmap]
      simp
  · unfold searchCryptocurrency
    rw [if_pos h]
    have hn : truthy name = false := by
      cases hx : truthy name
      · rfl
      · exact absurd (Or.inl hx) h
    have hs : truthy symbol = false := by
      cases hx : truthy symbol
      · rfl
      · exact absurd (Or.inr hx) h
    refine ⟨⟨fun _ => ⟨hn, hs⟩, fun _ => rfl⟩,
            fun hh => absurd hh h, fun sym hsy ht hmap => absurd (Or.inr ht) h⟩

/-- Witness for C3 at a concrete erroring client: the failed exact lookup is
logged and the call still returns a result; the no-input call raises. -/
theorem c3_witness :
    searchCryptocurrency failClient none (some (chars "ZZ")) none = .ok emptyResultZZ
    ∧ LogEntry.exactSymbolFailed (chars "ZZ") ∈ emptyResultZZ.searchLog
    ∧ searchCryptocurrency failClient none none none = .error .invalidArgument := by
  obtain ⟨r, hr, hmem⟩ :=
    (c3_error_handling failClient none (some (chars "ZZ")) none).2.2 (chars "ZZ") rfl rfl rfl
  have h0 : searchCryptocurrency failClient none (some (chars "ZZ")) none
      = .ok emptyResultZZ := by decide
  refine ⟨h0, ?_, (c3_error_handling failClient none none none).1.mpr ⟨rfl, rfl⟩⟩
  rw [h0] at hr
  exact (Except.ok.inj hr).symm ▸ hmem

theorem mem_symbolExpansions_ne {k v : Str} (hv : v ∈ symbolExpansions k) : v ≠ k := by
  unfold symbolExpansions at hv
  split_ifs at hv with h1 h2 h3 h4 h5 h6 h7 h8
  · subst h1; fin_cases hv <;> decide
  · subst h2; fin_cases hv <;> decide
  · subst h3; fin_cases hv <;> decide
  · subst h4; fin_cases hv <;> decide
  · subst h5; fin_cases hv <;> decide
  · subst h6; fin_cases hv <;> decide
  · subst h7; fin_cases hv <;> decide
  · subst h8; fin_cases hv <;> decide
  · exact absurd hv (List.not_mem_nil v)

theorem self_not_mem_variationsOfNormalized (s : Str) :
    s ∉ variationsOfNormalized s := by
  intro hmem
  unfold variationsOfNormalized at hmem
  simp only [List.mem_append] at hmem
  rcases hmem with ((((hA | hB) | hC) | hD) | hE) | hF
  · exact absurd rfl (mem_symbolExpansions_ne hA)
  · rw [List.mem_filterMap] at hB
    obtain ⟨suf, hsuf, heq⟩ := hB
    split_ifs at heq with hcond
    have hpos : ∀ x ∈ suffixList, 0 < List.length x := by decide
    have hlen := congrArg List.length (Option.some.inj heq)
    rw [List.length_take] at hlen
    have h1 := hpos suf hsuf
    have h2 := hcond.2
    omega
  · split_ifs at hC with hcond
    · have h5 : (chars "TOKEN").length = 5 := by decide
      have h4 : (chars "COIN").length = 4 := by decide
      rcases List.mem_cons.mp hC with heq | hC
      · have := congrArg List.length heq
        rw [List.length_append, h5] at this
        omega
      rcases List.mem_cons.mp hC with heq | hC
      · have := congrArg List.length heq
        rw [List.length_append, h4] at this
        omega
      · exact absurd hC (List.not_mem_nil s)
    · exact absurd hC (List.not_mem_nil s)
  · split_ifs at hD with hcond
    · have heq := List.mem_singleton.mp hD
      cases hL : s.getLast? with
      | none => rw [hL] at hcond; cases hcond
      | some c =>
        rw [hL] at hcond
        simp at hcond
        have hrev : s.reverse.head? = some c := by
          rw [List.head?_reverse, hL]
        cases hr : s.reverse with
        | nil => rw [hr] at hrev; cases hrev
        | cons c0 t =>
          rw [hr] at hrev
          have hc0 : c0 = c := by simpa using hrev
          have hlen : (pyRstrip Char.isDigit s).length < s.length := by
            unfold pyRstrip
            rw [hr, hc0, List.dropWhile_cons_of_pos hcond]
            have h1 : (t.dropWhile Char.isDigit).length ≤ t.length :=
              (List.dropWhile_sublist _).length_le
            have h2 : s.length = t.length + 1 := by
              have h3 := congrArg List.length hr
              simp at h3
              omega
            simp only [List.length_reverse]
            omega
          rw [← heq] at hlen
          omega
    · exact absurd hD (List.not_mem_nil s)
  · split_ifs at hE with hcond
    · have heq := List.mem_singleton.mp hE
      have h2 : (chars "ER").length = 2 := by decide
      have hlen := congrArg List.length heq
      rw [List.length_append, List.length_dropLast, h2] at hlen
      have h3 := hcond.1
      omega
    · exact absurd hE (List.not_mem_nil s)
  · split_ifs at hF with hcond
    · have heq := List.mem_singleton.mp hF
      have h2 : (chars "ET").length = 2 := by decide
      have hlen := congrArg List.length heq
      rw [List.length_append, h2] at hlen
      omega
    · exact absurd hF (List.not_mem_nil s)

theorem variationLoop_queried_subset (client : Client) (u : Str) :
    ∀ (vs : List Str) (v : Str), v ∈ (variationLoop client u vs).2.2 → v ∈ vs := by
  intro vs
  induction vs with
  | nil => intro v hv; exact absurd hv (List.not_mem_nil v)
  | cons w rest ih =>
    intro v hv
    unfold variationLoop at hv
    split at hv
    · exact List.mem_cons_of_mem _ (ih v hv)
    · split at hv
      · rcases List.mem_cons.mp hv with rfl | hv
        · exact List.mem_cons_self _ _
        · exact List.mem_cons_of_mem _ (ih v hv)
      · rcases List.mem_cons.mp hv with rfl | hv
        · exact List.mem_cons_self _ _
        · exact List.mem_cons_of_mem _ (ih v hv)
      · rcases List.mem_cons.mp hv with rfl | hv
        · exact List.mem_cons_self _ _
        · exact absurd hv (List.not_mem_nil v)

theorem variationLoop_stops (client : Client) (u : Str) :
    ∀ (vs : List Str) (i : Nat) (v : Str),
      (variationLoop client u vs).2.2[i]? = some v →
      (∃ e es, client.mapBySymbol v = .ok (e :: es)) →
      i + 1 = (variationLoop client u vs).2.2.length := by
  intro vs
  induction vs with
  | nil => intro i v hv _; simp [variationLoop] at hv
  | cons w rest ih =>
    intro i v hv hok
    unfold variationLoop at hv ⊢
    by_cases hw : w = u
    · rw [if_pos hw] at hv ⊢
      exact ih i v hv hok
    · rw [if_neg hw] at hv ⊢
      cases hmap : client.mapBySymbol w with
      | error e =>
        rw [hmap] at hv
        dsimp only at hv
        cases i with
        | zero =>
          simp only [List.getElem?_cons_zero, Option.some.injEq] at hv
          subst hv
          obtain ⟨e0, es0, hok⟩ := hok
          rw [hmap] at hok
          exact Except.noConfusion hok
        | succ i =>
          rw [List.getElem?_cons_succ] at hv
          rw [List.length_cons, ← ih i v hv hok]
      | ok data =>
        cases data with
        | nil =>
          rw [hmap] at hv
          dsimp only at hv
          cases i with
          | zero =>
            simp only [List.getElem?_cons_zero, Option.some.injEq] at hv
            subst hv
            obtain ⟨e0, es0, hok⟩ := hok
            rw [hmap] at hok
            cases Except.ok.inj hok
          | succ i =>
            rw [List.getElem?_cons_succ] at hv
            rw [List.length_cons, ← ih i v hv hok]
        | cons e es =>
          rw [hmap] at hv
          dsimp only at hv
          cases i with
          | zero => rfl
          | succ i => simp at hv

/-- C5: in the symbol-variation loop, every variant that is actually looked
up differs from the normalized (uppercased and trimmed) symbol — so a
variant equal to it is never looked up, for any input symbol including ones
with surrounding whitespace — and the loop stops at the first variant whose
lookup returns entries: a successfully-looked-up variant is always the last
lookup of the loop. -/
theorem c5_variation_skip_and_stop :
    ∀ (client : Client) (symbol : Str),
      (∀ v ∈ (variationLoop client (pyUpper symbol)
          (generateSymbolVariations symbol)).2.2, v ≠ pyStrip (pyUpper symbol))
      ∧ (∀ (i : Nat) (v : Str),
          (variationLoop client (pyUpper symbol)
            (generateSymbolVariations symbol)).2.2[i]? = some v →
          (∃ e es, client.mapBySymbol v = .ok (e :: es)) →
          i + 1 = (variationLoop client (pyUpper symbol)
            (generateSymbolVariations symbol)).2.2.length) := by
  intro client symbol
  constructor
  · intro v hv hveq
    have hvv : v ∈ generateSymbolVariations symbol :=
      variationLoop_queried_subset _ _ _ v hv
    rw [hveq] at hvv
    exact self_not_mem_variationsOfNormalized _ hvv
  · intro i v hv hok
    exact variationLoop_stops client _ _ i v hv hok

/-- Witness for C5: with a client on which only RNDRTOKEN succeeds, the loop
for RNDR looks up RENDER then RNDRTOKEN and stops: the successful lookup is
the last one, and no looked-up variant equals the normalized symbol. -/
theorem c5_witness :
    (variationLoop varClient (pyUpper (chars "RNDR"))
        (generateSymbolVariations (chars "RNDR"))).2.2
      = [chars "RENDER", chars "RNDRTOKEN"]
    ∧ chars "RENDER" ≠ pyStrip (pyUpper (chars "RNDR"))
    ∧ 1 + 1 = (variationLoop varClient (pyUpper (chars "RNDR"))
        (generateSymbolVariations (chars "RNDR"))).2.2.length :=
  ⟨by decide,
   (c5_variation_skip_and_stop varClient (chars "RNDR")).1 (chars "RENDER") (by decide),
   (c5_variation_skip_and_stop varClient (chars "RNDR")).2 1 (chars "RNDRTOKEN")
     (by decide) ⟨rndrEntry, [], by decide⟩⟩

theorem length_filterMap_of_all_some {α β : Type} (f : α → Option β) :
    ∀ l : List α, (∀ a ∈ l, (f a).isSome) → (l.filterMap f).length = l.length := by
  intro l
  induction l with
  | nil => intro _; rfl
  | cons a t ih =>
    intro h
    have ht := ih (fun x hx => h x (List.mem_cons_of_mem a hx))
    cases hf : f a with
    | none =>
      have h1 := h a (List.mem_cons_self a t)
      rw [hf] at h1
      cases h1
    | some b =>
      simp [List.filterMap_cons, hf, ht]

theorem entrySimilarityRaw_empty_query (nameLower : Str) (e : CatalogEntry)
    (hq : filterAlnum nameLower = []) :
    (entrySimilarityRaw nameLower e).1 = 1
    ∨ (entrySimilarityRaw nameLower e).1 = mkRat 9 10 := by
  unfold entrySimilarityRaw
  rw [hq]
  by_cases h1 : ([] : Str) = filterAlnum (pyLower e.name)
      ∨ ([] : Str) = filterAlnum (pyLower e.slug)
  · rw [if_pos h1]
    left
    rfl
  · rw [if_neg h1, if_pos (Or.inl List.nil_infix)]
    right
    rfl

/-- C6 counterexample: for the query string abcdefgh and an entry with name
Xy and slug abcde, the entry is not matched by the exact or contains rules,
its cleaned slug has length 5 and is a substring of the query's cleaned
form, yet the computed similarity is 0, not 0.85 — the length guard tests
the cleaned NAME even when the containment holds via the slug
(server.py:248). -/
theorem c6_counterexample :
    5 ≤ (filterAlnum (pyLower shortNameEntry.slug)).length
    ∧ filterAlnum (pyLower shortNameEntry.slug) <:+: filterAlnum (chars "abcdefgh")
    ∧ ¬ (filterAlnum (chars "abcdefgh") = filterAlnum (pyLower shortNameEntry.name)
        ∨ filterAlnum (chars "abcdefgh") = filterAlnum (pyLower shortNameEntry.slug))
    ∧ ¬ (filterAlnum (chars "abcdefgh") <:+: filterAlnum (pyLower shortNameEntry.name)
        ∨ filterAlnum (chars "abcdefgh") <:+: filterAlnum (pyLower shortNameEntry.slug))
    ∧ entrySimilarityRaw (chars "abcdefgh") shortNameEntry = (0, none)
    ∧ (0 : ℚ) ≠ mkRat 17 20 := by
  refine ⟨by decide, by decide, by decide, by decide, by decide, by decide⟩

/-- C6 (amended): in the fuzzy name match, for every catalog entry not
matched by the exact or contains rules, if the entry's alphanumeric
lowercase name or slug is a substring of the query's alphanumeric form and
the entry's alphanumeric NAME (the guard checks the name's length even when
the containment is via the slug) has length at least 5, the similarity is
0.85 with match type reverse_contains. -/
theorem c6_reverse_contains :
    ∀ (nameLower : Str) (e : CatalogEntry),
      ¬ (filterAlnum nameLower = filterAlnum (pyLower e.name)
          ∨ filterAlnum nameLower = filterAlnum (pyLower e.slug)) →
      ¬ (filterAlnum nameLower <:+: filterAlnum (pyLower e.name)
          ∨ filterAlnum nameLower <:+: filterAlnum (pyLower e.slug)) →
      (filterAlnum (pyLower e.name) <:+: filterAlnum nameLower
        ∨ filterAlnum (pyLower e.slug) <:+: filterAlnum nameLower) →
      5 ≤ (filterAlnum (pyLower e.name)).length →
      entrySimilarityRaw nameLower e = (mkRat 17 20, some MatchType.reverseContains) := by
  intro nameLower e h1 h2 h3 h4
  unfold entrySimilarityRaw
  rw [if_neg h1, if_neg h2, if_pos h3, if_pos h4]

/-- Witness for the amended C6 at a concrete entry and query. -/
theorem c6_witness :
    entrySimilarityRaw (chars "the ethereum project") ethEntry
      = (mkRat 17 20, some MatchType.reverseContains) :=
  c6_reverse_contains (chars "the ethereum project") ethEntry
    (by decide) (by decide) (by decide) (by decide)

/-- C10: when the query name's alphanumeric-lowercase form is empty and
every fetched catalog entry has a non-empty alphanumeric name or slug, every
entry scores at least 0.9 (the empty string is a substring of everything, so
the contains rule — or the exact rule when a cleaned field is itself empty —
fires), so the fuzzy search returns the top 5 of the whole catalog instead
of an empty result. -/
theorem c10_empty_query_matches_all :
    ∀ (client : Client) (name : Str) (data : List CatalogEntry),
      client.mapAll = .ok data →
      data ≠ [] →
      filterAlnum (pyStrip (pyLower name)) = [] →
      (∀ e ∈ data, filterAlnum (pyLower e.name) ≠ [] ∨ filterAlnum (pyLower e.slug) ≠ []) →
      (fuzzySearchByName client name).length = min 5 data.length
      ∧ fuzzySearchByName client name ≠ []
      ∧ ∀ m ∈ fuzzySearchByName client name, mkRat 9 10 ≤ m.similarity := by
  intro client name data hmapAll hne hq hent
  have hkey : ∀ e ∈ data, (scoreEntry (pyStrip (pyLower name)) e).isSome := by
    intro e he
    unfold scoreEntry
    rcases entrySimilarityRaw_empty_query (pyStrip (pyLower name)) e hq with hr | hr
    · rw [if_pos (by rw [hr]; decide)]
      rfl
    · rw [if_pos (by rw [hr]; decide)]
      rfl
  have hres : fuzzySearchByName client name
      = (List.insertionSort fuzzyKeyLe
          (data.filterMap (scoreEntry (pyStrip (pyLower name))))).take 5 := by
    unfold fuzzySearchByName
    rw [hmapAll]
  have hflen : (data.filterMap (scoreEntry (pyStrip (pyLower name)))).length
      = data.length := length_filterMap_of_all_some _ data hkey
  have hlen : (fuzzySearchByName client name).length = min 5 data.length := by
    rw [hres, List.length_take, List.length_insertionSort, hflen]
  refine ⟨hlen, ?_, ?_⟩
  · intro hnil
    rw [hnil] at hlen
    have h1 : 0 < data.length := List.length_pos.mpr hne
    simp at hlen
    omega
  · intro m hm
    rw [hres] at hm
    have hm1 := List.mem_of_mem_take hm
    rw [List.mem_insertionSort, List.mem_filterMap] at hm1
    obtain ⟨e, he, hfe⟩ := hm1
    unfold scoreEntry at hfe
    rcases entrySimilarityRaw_empty_query (pyStrip (pyLower name)) e hq with hr | hr
    · rw [if_pos (by rw [hr]; decide)] at hfe
      rw [← Option.some.inj hfe]
      show mkRat 9 10 ≤ round2 (entrySimilarityRaw (pyStrip (pyLower name)) e).1
      rw [hr]
      decide
    · rw [if_pos (by rw [hr]; decide)] at hfe
      rw [← Option.some.inj hfe]
      show mkRat 9 10 ≤ round2 (entrySimilarityRaw (pyStrip (pyLower name)) e).1
      rw [hr]
      decide

/-- Witness for C10: a query of only punctuation against a two-entry catalog
returns both entries. -/
theorem c10_witness :
    (fuzzySearchByName fullMapClient (chars "???")).length
      = min 5 ([btcEntry, ethEntry] : List CatalogEntry).length
    ∧ fuzzySearchByName fullMapClient (chars "???") ≠ [] :=
  ⟨(c10_empty_query_matches_all fullMapClient (chars "???") [btcEntry, ethEntry]
      rfl (by decide) (by decide) (by decide)).1,
   (c10_empty_query_matches_all fullMapClient (chars "???") [btcEntry, ethEntry]
      rfl (by decide) (by decide) (by decide)).2.1⟩

theorem mem_collapseRuns (p : Char → Bool) (rep : Char) :
    ∀ (l : Str) (c : Char), c ∈ collapseRuns p rep l →
      c = rep ∨ (c ∈ l ∧ p c = false)
  | [], c, h => absurd h (List.not_mem_nil c)
  | [d], c, h => by
    unfold collapseRuns at h
    split_ifs at h with hp
    · left
      exact List.mem_singleton.mp h
    · right
      have hcd := List.mem_singleton.mp h
      subst hcd
      exact ⟨List.mem_singleton_self c, by simpa using hp⟩
  | d :: e :: rest, c, h => by
    unfold collapseRuns at h
    split_ifs at h with hp hq
    · rcases mem_collapseRuns p rep (e :: rest) c h with h1 | ⟨h1, h2⟩
      · left; exact h1
      · right; exact ⟨List.mem_cons_of_mem d h1, h2⟩
    · rcases List.mem_cons.mp h with rfl | h
      · left; rfl
      · rcases mem_collapseRuns p rep (e :: rest) c h with h1 | ⟨h1, h2⟩
        · left; exact h1
        · right; exact ⟨List.mem_cons_of_mem d h1, h2⟩
    · rcases List.mem_cons.mp h with rfl | h
      · right; exact ⟨List.mem_cons_self _ _, by simpa using hp⟩
      · rcases mem_collapseRuns p rep (e :: rest) c h with h1 | ⟨h1, h2⟩
        · left; exact h1
        · right; exact ⟨List.mem_cons_of_mem d h1, h2⟩

theorem head?_collapseRuns_of_neg {p : Char → Bool} {rep d : Char} (rest : Str)
    (hd : p d = false) : (collapseRuns p rep (d :: rest)).head? = some d := by
  cases rest with
  | nil =>
    unfold collapseRuns
    rw [if_neg (by simp [hd])]
    rfl
  | cons e t =>
    unfold collapseRuns
    rw [if_neg (by simp [hd])]
    rfl

theorem chain'_collapseRuns (p : Char → Bool) (rep : Char) :
    ∀ l : Str, List.Chain' (fun a b => p a = false ∨ p b = false) (collapseRuns p rep l)
  | [] => List.chain'_nil
  | [c] => by
    unfold collapseRuns
    split_ifs <;> exact List.chain'_singleton _
  | c :: d :: rest => by
    unfold collapseRuns
    split_ifs with hp hq
    · exact chain'_collapseRuns p rep (d :: rest)
    · rw [List.chain'_cons']
      refine ⟨?_, chain'_collapseRuns p rep (d :: rest)⟩
      intro y hy
      have hq' : p d = false := by simpa using hq
      rw [Option.mem_def, head?_collapseRuns_of_neg rest hq'] at hy
      right
      rw [← Option.some.inj hy]
      exact hq'
    · rw [List.chain'_cons']
      refine ⟨fun y _ => Or.inl (by simpa using hp), chain'_collapseRuns p rep (d :: rest)⟩

theorem collapseRuns_eq_self_of_not (p : Char → Bool) (rep : Char) :
    ∀ l : Str, (∀ c ∈ l, p c = false) → collapseRuns p rep l = l
  | [], _ => rfl
  | [c], h => by
    unfold collapseRuns
    rw [if_neg (by simp [h c (List.mem_singleton_self c)])]
  | c :: d :: rest, h => by
    unfold collapseRuns
    rw [if_neg (by simp [h c (List.mem_cons_self c _)])]
    rw [collapseRuns_eq_self_of_not p rep (d :: rest)
      (fun x hx => h x (List.mem_cons_of_mem c hx))]

theorem collapseRuns_hyphen_eq_self :
    ∀ l : Str, List.Chain' (fun a b => (a == '-') = false ∨ (b == '-') = false) l →
      collapseRuns (· == '-') '-' l = l
  | [], _ => rfl
  | [c], _ => by
    unfold collapseRuns
    split_ifs with hp
    · have hc : c = '-' := by simpa using hp
      subst hc
      rfl
    · rfl
  | c :: d :: rest, hch => by
    rw [List.chain'_cons] at hch
    unfold collapseRuns
    split_ifs with hp hq
    · rcases hch.1 with h1 | h1
      · rw [hp] at h1; cases h1
      · rw [hq] at h1; cases h1
    · have hc : c = '-' := by simpa using hp
      subst hc
      rw [collapseRuns_hyphen_eq_self (d :: rest) hch.2]
    · rw [collapseRuns_hyphen_eq_self (d :: rest) hch.2]

theorem dropWhile_eq_self_of_head (p : Char → Bool) (l : Str)
    (h : ∀ c, l.head? = some c → p c = false) : l.dropWhile p = l := by
  cases l with
  | nil => rfl
  | cons a t => rw [List.dropWhile_cons_of_neg (by simp [h a rfl])]

theorem head?_dropWhile_false (p : Char → Bool) :
    ∀ (l : Str) (c : Char), (l.dropWhile p).head? = some c → p c = false
  | [], c, h => by cases h
  | a :: t, c, h => by
    by_cases hp : p a
    · rw [List.dropWhile_cons_of_pos hp] at h
      exact head?_dropWhile_false p t c h
    · rw [List.dropWhile_cons_of_neg hp] at h
      have hac := Option.some.inj h
      subst hac
      simpa using hp

theorem getLast?_suffix_eq {l₁ l₂ : Str} (hs : l₁ <:+ l₂) (hne : l₁ ≠ []) :
    l₁.getLast? = l₂.getLast? := by
  obtain ⟨pre, rfl⟩ := hs
  rw [List.getLast?_append]
  cases hl : l₁.getLast? with
  | none => exact absurd (List.getLast?_eq_none_iff.mp hl) hne
  | some a => rfl

theorem mem_pyStripChar (h : Char) (l : Str) {c : Char}
    (hc : c ∈ pyStripChar h l) : c ∈ l := by
  unfold pyStripChar at hc
  have h1 := (List.dropWhile_sublist _).subset (List.mem_reverse.mp hc)
  have h2 := (List.dropWhile_sublist _).subset (List.mem_reverse.mp h1)
  exact h2

theorem chain'_pyStripChar {R : Char → Char → Prop} (hsymm : ∀ a b, R a b → R b a)
    (h : Char) (l : Str) (hch : List.Chain' R l) :
    List.Chain' R (pyStripChar h l) := by
  unfold pyStripChar
  have s1 : List.Chain' R (l.dropWhile (· == h)) :=
    hch.suffix (List.dropWhile_suffix _)
  have s2 : List.Chain' R (l.dropWhile (· == h)).reverse :=
    List.chain'_reverse.mpr (s1.imp (fun a b hab => hsymm a b hab))
  have s3 : List.Chain' R ((l.dropWhile (· == h)).reverse.dropWhile (· == h)) :=
    s2.suffix (List.dropWhile_suffix _)
  exact List.chain'_reverse.mpr (s3.imp (fun a b hab => hsymm a b hab))

theorem head?_pyStripChar_false (h : Char) (l : Str) {c : Char}
    (hc : (pyStripChar h l).head? = some c) : (c == h) = false := by
  unfold pyStripChar at hc
  rw [List.head?_reverse] at hc
  have h1 : (l.dropWhile (· == h)).reverse.dropWhile (· == h) ≠ [] := by
    intro hz
    rw [hz] at hc
    cases hc
  have h2 := getLast?_suffix_eq (List.dropWhile_suffix _) h1
  rw [h2, List.getLast?_reverse] at hc
  exact head?_dropWhile_false (fun x => x == h) l c hc

theorem getLast?_pyStripChar_false (h : Char) (l : Str) {c : Char}
    (hc : (pyStripChar h l).getLast? = some c) : (c == h) = false := by
  unfold pyStripChar at hc
  rw [List.getLast?_reverse] at hc
  exact head?_dropWhile_false (fun x => x == h)
    (l.dropWhile (fun x => x == h)).reverse c hc

theorem pyStripChar_eq_self (h : Char) (l : Str)
    (h1 : ∀ c, l.head? = some c → (c == h) = false)
    (h2 : ∀ c, l.getLast? = some c → (c == h) = false) :
    pyStripChar h l = l := by
  unfold pyStripChar
  rw [dropWhile_eq_self_of_head _ _ h1]
  rw [dropWhile_eq_self_of_head _ _
    (fun c hc => h2 c (by rwa [List.head?_reverse] at hc))]
  rw [List.reverse_reverse]

theorem pyStrip_eq_self (l : Str) (h : ∀ c ∈ l, isSpaceChar c = false) :
    pyStrip l = l := by
  unfold pyStrip
  have hd1 : l.dropWhile isSpaceChar = l := by
    apply dropWhile_eq_self_of_head
    intro c hc
    apply h
    exact List.mem_of_mem_head? (Option.mem_def.mpr hc)
  rw [hd1]
  have hd2 : l.reverse.dropWhile isSpaceChar = l.reverse := by
    apply dropWhile_eq_self_of_head
    intro c hc
    apply h
    rw [List.head?_reverse] at hc
    exact List.mem_of_getLast?_eq_some hc
  rw [hd2, List.reverse_reverse]

theorem goodSlug_lowerChar {c : Char} (h : goodSlug c) : lowerChar c = c := by
  unfold lowerChar
  rw [if_neg ?_]
  unfold goodSlug at h
  rintro ⟨ha, hb⟩
  rcases h with ⟨h1, h2⟩ | ⟨h1, h2⟩ | h1 <;> omega

theorem goodSlug_not_space {c : Char} (h : goodSlug c) : isSpaceChar c = false := by
  unfold isSpaceChar
  rw [decide_eq_false_iff_not]
  unfold goodSlug at h
  rintro (h2 | ⟨h2, h3⟩) <;> rcases h with ⟨ha, hb⟩ | ⟨ha, hb⟩ | ha <;> omega

theorem goodSlug_keep {c : Char} (h : goodSlug c) : keepSlugChar c = true := by
  unfold keepSlugChar
  rw [decide_eq_true_eq]
  unfold goodSlug at h
  rcases h with h | h | h
  · exact Or.inl h
  · exact Or.inr (Or.inl h)
  · exact Or.inr (Or.inr (Or.inr h))

theorem goodSlug_not_ws {c : Char} (h : goodSlug c) : isWsOrUnderscore c = false := by
  unfold isWsOrUnderscore
  rw [Bool.or_eq_false_iff]
  refine ⟨goodSlug_not_space h, ?_⟩
  rw [decide_eq_false_iff_not]
  unfold goodSlug at h
  intro h2
  rcases h with ⟨ha, hb⟩ | ⟨ha, hb⟩ | ha <;> omega

theorem pyLower_eq_self (l : Str) (h : ∀ c ∈ l, lowerChar c = c) : pyLower l = l := by
  unfold pyLower
  rw [List.map_congr_left h]
  exact List.map_id' l

theorem goodSlug_of_mem_nameToSlug (s : Str) : ∀ c ∈ nameToSlug s, goodSlug c := by
  intro c hc
  unfold nameToSlug at hc
  have hc4 := mem_pyStripChar '-' _ hc
  rcases mem_collapseRuns _ _ _ c hc4 with rfl | ⟨hc3, hn3⟩
  · right; right; rfl
  · rcases mem_collapseRuns _ _ _ c hc3 with rfl | ⟨hc2, hn2⟩
    · right; right; rfl
    · have hk := List.mem_filter.mp hc2
      have hkeep := hk.2
      unfold keepSlugChar at hkeep
      rw [decide_eq_true_eq] at hkeep
      unfold isWsOrUnderscore at hn2
      rw [Bool.or_eq_false_iff] at hn2
      rcases hkeep with h | h | h | h
      · exact Or.inl h
      · exact Or.inr (Or.inl h)
      · rw [hn2.1] at h; cases h
      · exact Or.inr (Or.inr h)

theorem chain'_nameToSlug (s : Str) :
    List.Chain' (fun a b => (a == '-') = false ∨ (b == '-') = false) (nameToSlug s) := by
  unfold nameToSlug
  exact chain'_pyStripChar (fun a b hab => hab.symm) '-' _ (chain'_collapseRuns _ '-' _)

theorem head?_nameToSlug_false (s : Str) {c : Char}
    (h : (nameToSlug s).head? = some c) : (c == '-') = false := by
  unfold nameToSlug at h
  exact head?_pyStripChar_false '-' _ h

theorem getLast?_nameToSlug_false (s : Str) {c : Char}
    (h : (nameToSlug s).getLast? = some c) : (c == '-') = false := by
  unfold nameToSlug at h
  exact getLast?_pyStripChar_false '-' _ h

theorem nameToSlug_eq_self (l : Str)
    (hgood : ∀ c ∈ l, goodSlug c)
    (hch : List.Chain' (fun a b => (a == '-') = false ∨ (b == '-') = false) l)
    (hh : ∀ c, l.head? = some c → (c == '-') = false)
    (hl : ∀ c, l.getLast? = some c → (c == '-') = false) :
    nameToSlug l = l := by
  show pyStripChar '-' (collapseRuns (· == '-') '-' (collapseRuns isWsOrUnderscore '-'
    ((pyStrip (pyLower l)).filter keepSlugChar))) = l
  rw [pyLower_eq_self l (fun c hc => goodSlug_lowerChar (hgood c hc))]
  rw [pyStrip_eq_self l (fun c hc => goodSlug_not_space (hgood c hc))]
  rw [List.filter_eq_self.mpr (fun c hc => goodSlug_keep (hgood c hc))]
  rw [collapseRuns_eq_self_of_not _ '-' l (fun c hc => goodSlug_not_ws (hgood c hc))]
  rw [collapseRuns_hyphen_eq_self l hch]
  exact pyStripChar_eq_self '-' l hh hl

/-- C7: slug derivation is idempotent — deriving a slug from an
already-derived slug returns it unchanged — and maps the three spec examples
to their expected slugs. -/
theorem c7_slug_idempotent :
    (∀ s : Str, nameToSlug (nameToSlug s) = nameToSlug s)
    ∧ nameToSlug (chars "Render Token") = chars "render-token"
    ∧ nameToSlug (chars "USD Coin (USDC)") = chars "usd-coin-usdc"
    ∧ nameToSlug (chars "The Graph") = chars "the-graph" := by
  refine ⟨fun s => nameToSlug_eq_self (nameToSlug s)
      (goodSlug_of_mem_nameToSlug s)
      (chain'_nameToSlug s)
      (fun c hc => head?_nameToSlug_false s hc)
      (fun c hc => getLast?_nameToSlug_false s hc),
    by decide, by decide, by decide⟩

end CMC
